import Mathlib

/-!
Verification development for the English-dictionary Telegram bot
(representative source file: `src/bot_last.py`).

The per-chat mutable dictionary `context.user_data` is embedded as the
`Session` structure; handlers become functions `Session → Option (Session × List Msg)`
where `none` models an uncaught Python exception (e.g. a `KeyError` on a
missing session key or an `IndexError`) and the `List Msg` collects the
outbound chat messages the handler sends.  External collaborators
(translation providers, the Cambridge dictionary scrape, the vocabulary
store, and the user-word listing) are parameters gathered in `Env`.
`random.shuffle` calls are embedded as explicitly-passed shuffle functions;
theorems quantify over all such functions that permute their input, and
concrete witnesses instantiate them with the identity.
-/

namespace DictBot

/-- One stored vocabulary record as returned by `get_user_words`
(`src/bot_last.py:174`).  The server returns JSON dictionaries with keys
`word`, `translation`, `definition`; a missing or null field is embedded as
the empty string, matching the falsy checks `w.get('word')` etc. in the code. -/
structure Entry where
  word : String
  translation : String
  definition : String
deriving DecidableEq, Repr

/-- The two quiz question kinds built by `start_quiz` (`src/bot_last.py:288`). -/
inductive QType where
  | translation
  | definition
deriving DecidableEq, Repr

/-- A quiz question dictionary (`src/bot_last.py:324`): it carries its kind,
the entry word, the secondary payload (`translation` or `definition` key),
the correct answer and the option list. -/
structure Question where
  qtype : QType
  word : String
  payload : String
  correct : String
  options : List String
deriving DecidableEq, Repr

/-- Python `str.strip()`: drop the leading and trailing whitespace
characters.  Defined on the character list so that it evaluates inside the
kernel (the ASCII whitespace class of `Char.isWhitespace` covers every
character this repository's inputs can carry). -/
def pyStrip (s : String) : String :=
  ⟨((s.data.dropWhile Char.isWhitespace).reverse.dropWhile Char.isWhitespace).reverse⟩

/-- Python `str.lower()` on the character list. -/
def pyLower (s : String) : String :=
  ⟨s.data.map Char.toLower⟩

/-- Python `str.split(sep)` for a one-character separator, on character
lists: splitting the empty text yields one empty piece, matching Python. -/
def splitOnChar (sep : Char) : List Char → List (List Char)
  | [] => [[]]
  | c :: cs =>
    if c = sep then [] :: splitOnChar sep cs
    else
      match splitOnChar sep cs with
      | [] => [[c]]
      | g :: gs => (c :: g) :: gs

/-- First-occurrence deduplication with an accumulator of already-seen
values; embeds Python dictionary/set key deduplication. -/
def dedupKeepFirstAux (seen : List String) : List String → List String
  | [] => []
  | x :: xs =>
    if x ∈ seen then dedupKeepFirstAux seen xs
    else x :: dedupKeepFirstAux (x :: seen) xs

/-- First-occurrence deduplication (`list(dict.fromkeys(...))`, and the
multiset content of `list(set(...))`). -/
def dedupKeepFirst (l : List String) : List String :=
  dedupKeepFirstAux [] l

/-- The placeholder distractor label `f"Вариант {i+1}"`
(`src/bot_last.py:232`). -/
def placeholderLabel (i : Nat) : String :=
  "Вариант " ++ toString (i + 1)

/-- The placeholder labels that `generate_options` can ever synthesize when
called with `count = 3` (indices 0, 1, 2). -/
def placeholderLabels : List String :=
  [placeholderLabel 0, placeholderLabel 1, placeholderLabel 2]

/-- The candidate-distractor pool of `generate_options`
(`src/bot_last.py:221-232`): the stripped `field` values of all entries whose
stripped value differs from the correct answer and has more than one
character, deduplicated (Python uses `list(set(...))`, whose arbitrary
iteration order is absorbed by the shuffle that immediately follows; we fix
the first-occurrence order as the canonical representative), padded with
placeholder labels up to `count` elements when fewer remain. -/
def genPool (words : List Entry) (correct_value : String) (field : Entry → String)
    (count : Nat) : List String :=
  let all_values :=
    (words.filter (fun w =>
      field w != "" && pyStrip (field w) != correct_value &&
        decide (1 < (pyStrip (field w)).length))).map (fun w => pyStrip (field w))
  let deduped := dedupKeepFirst all_values
  if deduped.length < count then
    deduped ++ (List.range (count - deduped.length)).map placeholderLabel
  else
    deduped

/-- `generate_options` (`src/bot_last.py:204-240`).  Returns `[]` when the
word list is empty or the correct answer is falsy; otherwise builds the
distractor pool, shuffles it (`sh1`), prepends the correct answer to the
first `count` distractors, shuffles again (`sh2`) and truncates to 4. -/
def generate_options (sh1 sh2 : List String → List String) (words : List Entry)
    (correct_value : String) (field : Entry → String) (count : Nat) : List String :=
  if words = [] ∨ correct_value = "" then []
  else
    let pool := sh1 (genPool words correct_value field count)
    let options := correct_value :: pool.take count
    (sh2 options).take 4

/-- A pair of shuffle functions standing for the two `random.shuffle` calls
inside one `generate_options` invocation. -/
structure ShufflePair where
  sh1 : List String → List String
  sh2 : List String → List String

/-- A shuffle pair is well formed when both functions permute their input. -/
def PermPair (p : ShufflePair) : Prop :=
  (∀ l, (p.sh1 l).Perm l) ∧ (∀ l, (p.sh2 l).Perm l)

/-- The randomness consumed by one `start_quiz` run: a fresh shuffle pair for
every `generate_options` call of each question-building phase, and the final
`random.shuffle(questions)`. -/
structure QuizRand where
  transPhase : Nat → ShufflePair
  defPhase : Nat → ShufflePair
  fillPhase : Nat → ShufflePair
  finalShuffle : List Question → List Question

/-- All shuffles of a `QuizRand` permute their inputs. -/
def GoodRand (r : QuizRand) : Prop :=
  (∀ n, PermPair (r.transPhase n)) ∧ (∀ n, PermPair (r.defPhase n)) ∧
    (∀ n, PermPair (r.fillPhase n)) ∧ (∀ l, (r.finalShuffle l).Perm l)

/-- The identity shuffle pair. -/
def idPair : ShufflePair := ⟨id, id⟩

/-- Quiz randomness in which every shuffle is the identity. -/
def idRand : QuizRand := ⟨fun _ => idPair, fun _ => idPair, fun _ => idPair, id⟩

/-- One iteration of the first `start_quiz` loop (`src/bot_last.py:321-330`):
build options for a translation question and keep the question when at least
4 options were produced.  The body of a conditionally-appending `for` loop is
embedded as `filterMap` over the enumerated entry list (the index selects the
shuffle pair consumed by that iteration). -/
def transQ (r : QuizRand) (quiz_words : List Entry) (iw : Nat × Entry) : Option Question :=
  let opts := generate_options ((r.transPhase iw.1).sh1) ((r.transPhase iw.1).sh2)
      quiz_words iw.2.word Entry.word 3
  if 4 ≤ opts.length then
    some ⟨QType.translation, iw.2.word, iw.2.translation, iw.2.word, opts⟩
  else
    none

/-- The translation-question phase of `start_quiz` (`src/bot_last.py:320-330`). -/
def transQuestions (r : QuizRand) (quiz_words : List Entry) (tws : List Entry) :
    List Question :=
  tws.enum.filterMap (transQ r quiz_words)

/-- One iteration of the second `start_quiz` loop (`src/bot_last.py:338-348`). -/
def defQ (r : QuizRand) (quiz_words : List Entry) (iw : Nat × Entry) : Option Question :=
  let opts := generate_options ((r.defPhase iw.1).sh1) ((r.defPhase iw.1).sh2)
      quiz_words iw.2.definition Entry.definition 3
  if 4 ≤ opts.length then
    some ⟨QType.definition, iw.2.word, iw.2.definition, iw.2.definition, opts⟩
  else
    none

/-- The definition-question phase of `start_quiz` (`src/bot_last.py:333-348`). -/
def defQuestions (r : QuizRand) (quiz_words : List Entry) (dws : List Entry) :
    List Question :=
  dws.enum.filterMap (defQ r quiz_words)

/-- One iteration of the filler loop of `start_quiz` (`src/bot_last.py:353-376`):
`break` once 10 questions exist, otherwise entries at even positions become
translation questions when possible, and a definition question is attempted
otherwise. -/
def fillerStep (r : QuizRand) (quiz_words : List Entry) (acc : List Question)
    (iw : Nat × Entry) : List Question :=
  if 10 ≤ acc.length then acc
  else
    let i := iw.1
    let w := iw.2
    if i % 2 = 0 ∧ w.word ≠ "" ∧ w.translation ≠ "" then
      let opts := generate_options ((r.fillPhase i).sh1) ((r.fillPhase i).sh2)
          quiz_words w.word Entry.word 3
      if 4 ≤ opts.length then
        acc ++ [⟨QType.translation, w.word, w.translation, w.word, opts.take 4⟩]
      else acc
    else if w.word ≠ "" ∧ w.definition ≠ "" ∧ pyStrip w.definition ≠ "" then
      let opts := generate_options ((r.fillPhase i).sh1) ((r.fillPhase i).sh2)
          quiz_words w.definition Entry.definition 3
      if 4 ≤ opts.length then
        acc ++ [⟨QType.definition, w.word, w.definition, w.definition, opts.take 4⟩]
      else acc
    else acc

/-- The filler loop of `start_quiz` (`src/bot_last.py:351-376`). -/
def fillerFold (r : QuizRand) (quiz_words : List Entry) (remaining : List Entry)
    (init : List Question) : List Question :=
  remaining.enum.foldl (fillerStep r quiz_words) init

/-- The entry filter of the translation phase (`src/bot_last.py:320`). -/
def transEligible (w : Entry) : Bool :=
  w.word != "" && w.translation != ""

/-- The entry filter of the definition phase (`src/bot_last.py:333-336`):
`w.get('word') and w.get('definition') and w['definition'].strip()`. -/
def defEligible (w : Entry) : Bool :=
  w.word != "" && w.definition != "" && pyStrip w.definition != ""

/-- The question set built by `start_quiz` (`src/bot_last.py:288-388`) from the
already-shuffled user word list: cap at 40 entries, up to 5 translation
questions, up to 5 definition questions (the definition-eligible list is
sliced starting at the number of translation questions' words), then the
filler loop over the remaining entries, and a final shuffle.  An empty result
means the quiz is not started. -/
def start_quiz_questions (r : QuizRand) (words : List Entry) : List Question :=
  if words = [] then []
  else
    let quiz_words := words.take 40
    let translation_words := (quiz_words.filter transEligible).take 5
    let q1 := transQuestions r quiz_words translation_words
    let definition_words :=
      (((quiz_words.filter defEligible).drop translation_words.length).take 5)
    let q2 := q1 ++ defQuestions r quiz_words definition_words
    let questions :=
      if q2.length < 10 ∧
          translation_words.length + definition_words.length < quiz_words.length then
        fillerFold r quiz_words
          (quiz_words.drop (translation_words.length + definition_words.length)) q2
      else q2
    r.finalShuffle questions

/-- The session mode strings stored in `context.user_data['mode']`. -/
inductive Mode where
  | idle
  | choose_mode
  | choose_lang
  | waiting_words
  | selecting_translation
  | await_custom_translation
  | choosing_definition
  | await_custom_definition
  | await_rewrite_words
  | post_actions
  | quiz_active
deriving DecidableEq, Repr

/-- The per-chat `context.user_data` dictionary.  Keys read through plain
indexing (a `KeyError` when absent) are embedded as `Option`; keys read with
a `.get` default are embedded with that default as the cleared value. -/
structure Session where
  mode : Option Mode
  words_queue : List String
  current_word : Option String
  src : Option String
  dest : Option String
  pending_word_en : Option String
  pending_word_ru : Option String
  cambridge_definition_en : Option String
  cambridge_definition_ru : Option String
  early_rewrite : Bool
  quiz_questions : List Question
  current_question : Nat
  quiz_score : Nat
deriving DecidableEq, Repr

/-- A fully cleared session (`context.user_data.clear()`, or a chat that has
never interacted). -/
def Session.empty : Session :=
  { mode := none, words_queue := [], current_word := none, src := none,
    dest := none, pending_word_en := none, pending_word_ru := none,
    cambridge_definition_en := none, cambridge_definition_ru := none,
    early_rewrite := false, quiz_questions := [], current_question := 0,
    quiz_score := 0 }

/-- Outbound chat messages, abstracted to the data that distinguishes them. -/
inductive Msg where
  | welcome
  | chooseLang
  | enterWords
  | cantTranslate (word : String)
  | chooseTranslation (word : String) (variants : List String)
  | allWordsAdded
  | chooseDefinition (word_en word_ru : String) (options : List (String × String))
  | enterCustomTranslation
  | enterCustomDefinition
  | enterRewriteWords
  | savedOk (word_en : String)
  | savedWarn (word_en : String)
  | skippedWord (word : String)
  | wordsUpdated (n : Nat)
  | cantExtractWords
  | noWords
  | insufficientData
  | questionPrompt (idx : Nat)
  | feedbackCorrect
  | feedbackWrong (correct : String)
  | quizSummary (score total : Nat)
  | notUnderstood
  | unknownCommand
  | goodbye
deriving DecidableEq, Repr

/-- External collaborators: the two translation providers (per word and
language pair; `none` is a swallowed provider failure or an unconfigured
DeepL), the Cambridge definition scrape (empty string when not found), the
machine translation of a definition (`none` is a failure), the stored word
list of the user (empty also when the listing request fails), and the
randomness of a quiz run. -/
structure Env where
  googleT : String → String → String → Option String
  deeplT : String → String → String → Option String
  cambridge : String → String
  defTranslate : String → Option String
  userWords : List Entry
  rand : QuizRand
  wordShuffle : List Entry → List Entry

/-- A trivial environment for concrete runs: every provider fails, the
dictionary knows nothing, the store is empty, all shuffles are the identity. -/
def envNull : Env :=
  { googleT := fun _ _ _ => none, deeplT := fun _ _ _ => none,
    cambridge := fun _ => "", defTranslate := fun _ => none,
    userWords := [], rand := idRand, wordShuffle := id }

/-- `get_translations` (`src/bot_last.py:95-128`) given the outcome of each
provider call: a dictionary in insertion order, Google first, then DeepL,
each successful result stripped. -/
def get_translations (googleRes deeplRes : Option String) : List (String × String) :=
  (match googleRes with
   | some t => [("Google", pyStrip t)]
   | none => []) ++
  (match deeplRes with
   | some t => [("DeepL", pyStrip t)]
   | none => [])

/-- `list(dict.fromkeys(translations.values()))` (`src/bot_last.py:639`):
the provider texts deduplicated by exact string equality, first seen kept. -/
def unique_variants (translations : List (String × String)) : List String :=
  dedupKeepFirst (translations.map Prod.snd)

/-- The tokenizer used for word input and rewrites (`src/bot_last.py:748`):
replace newlines by commas, split on commas, strip, drop empties. -/
def tokenize (text : String) : List String :=
  let replaced := text.data.map (fun ch => if ch = '\n' then ',' else ch)
  ((splitOnChar ',' replaced).map (fun cs => pyStrip ⟨cs⟩)).filter (fun w => w != "")

/-- The button-label truncation of `handle_word_definition_selection`
(`src/bot_last.py:672-674`); it only shortens the displayed label. -/
def truncateLabel (text : String) : String :=
  if 40 < text.length then text.take 40 ++ "…" else text

/-- `handle_word_definition_selection` (`src/bot_last.py:654-712`): fetch the
Cambridge definition, remember the pending pair and the definitions, offer
`orig` (when a definition was found), `trans` (when the machine translation
of the definition succeeded) and always `custom`; switch to
`choosing_definition`.  The keyboard additionally carries the constant
rewrite and skip rows, omitted here. -/
def handle_word_definition_selection (env : Env) (s : Session)
    (word_en word_ru : String) : Session × List Msg :=
  let definition_en := env.cambridge word_en
  let s1 := { s with pending_word_en := some word_en,
                     pending_word_ru := some word_ru,
                     cambridge_definition_en := some definition_en }
  let (s2, opts) :=
    if definition_en ≠ "" then
      match env.defTranslate definition_en with
      | some t =>
        let definition_ru := pyStrip t
        ({ s1 with cambridge_definition_ru := some definition_ru },
         [(truncateLabel definition_en, "orig"), (truncateLabel definition_ru, "trans")])
      | none =>
        ({ s1 with cambridge_definition_ru := some "" },
         [(truncateLabel definition_en, "orig")])
    else
      ({ s1 with cambridge_definition_ru := some "" }, ([] : List (String × String)))
  let opts := opts ++ [("✏️ Своё определение", "custom")]
  ({ s2 with mode := some Mode.choosing_definition },
   [Msg.chooseDefinition word_en word_ru opts])

/-- The queue-processing loop `process_next_word` (`src/bot_last.py:601-651`),
made structural on the queue it walks: an empty queue presents the
post-actions menu; otherwise the head word is translated, an untranslatable
head is skipped and the loop re-enters on the strictly shorter tail, and a
translatable head presents the deduplicated variants and awaits a selection.
Reading `src`/`dest` raises a `KeyError` when those keys are absent. -/
def process_queue (env : Env) : List String → Session → Option (Session × List Msg)
  | [], s => some ({ s with mode := some Mode.post_actions }, [Msg.allWordsAdded])
  | word :: rest, s =>
    match s.src, s.dest with
    | some src, some dest =>
      let ts := get_translations (env.googleT word src dest) (env.deeplT word src dest)
      if ts = [] then
        (process_queue env rest
            { s with current_word := some word, words_queue := rest }).map
          (fun p => (p.1, Msg.cantTranslate word :: p.2))
      else
        some ({ s with current_word := some word,
                       mode := some Mode.selecting_translation },
              [Msg.chooseTranslation word (unique_variants ts)])
    | _, _ => none

/-- `process_next_word` applied to the session's own queue. -/
def process_next_word (env : Env) (s : Session) : Option (Session × List Msg) :=
  process_queue env s.words_queue s

/-- Fuel-indexed variant of the queue-processing loop: the outer `none` means
the pass budget was exhausted before the loop exited.  Used to state that the
loop terminates within `queue length + 1` passes. -/
def process_queue_fuel (env : Env) : Nat → List String → Session →
    Option (Option (Session × List Msg))
  | 0, _, _ => none
  | _ + 1, [], s =>
    some (some ({ s with mode := some Mode.post_actions }, [Msg.allWordsAdded]))
  | fuel + 1, word :: rest, s =>
    match s.src, s.dest with
    | some src, some dest =>
      let ts := get_translations (env.googleT word src dest) (env.deeplT word src dest)
      if ts = [] then
        (process_queue_fuel env fuel rest
            { s with current_word := some word, words_queue := rest }).map
          (Option.map (fun p => (p.1, Msg.cantTranslate word :: p.2)))
      else
        some (some ({ s with current_word := some word,
                             mode := some Mode.selecting_translation },
              [Msg.chooseTranslation word (unique_variants ts)]))
    | _, _ => some none

/-- `finish_quiz` (`src/bot_last.py:496-541`): report the summary, clear the
quiz keys and return to idle. -/
def finish_quiz (s : Session) : Session × List Msg :=
  ({ s with quiz_questions := [], current_question := 0, quiz_score := 0,
            mode := some Mode.idle },
   [Msg.quizSummary s.quiz_score s.quiz_questions.length])

/-- `send_question` (`src/bot_last.py:400-445`): finish when the current index
is past the end, otherwise present the current question. -/
def send_question (s : Session) : Session × List Msg :=
  if s.quiz_questions.length ≤ s.current_question then finish_quiz s
  else (s, [Msg.questionPrompt s.current_question])

/-- `handle_quiz_answer` (`src/bot_last.py:447-494`): an out-of-range question
index finishes the quiz; otherwise the chosen option (an `IndexError` on an
invalid option index) is compared, stripped, with the stored correct answer,
the score is conditionally incremented, the current index is set to the
pressed question index plus one, and the next question is sent or the quiz
finished. -/
def handle_quiz_answer (s : Session) (question_idx option_idx : Nat) :
    Option (Session × List Msg) :=
  if s.quiz_questions.length ≤ question_idx then
    some (finish_quiz s)
  else
    match s.quiz_questions.get? question_idx with
    | none => none
    | some q =>
      match q.options.get? option_idx with
      | none => none
      | some selected =>
        let is_correct : Bool := pyStrip selected == pyStrip q.correct
        let s1 := if is_correct then { s with quiz_score := s.quiz_score + 1 } else s
        let fb := if is_correct then Msg.feedbackCorrect else Msg.feedbackWrong q.correct
        let s2 := { s1 with current_question := question_idx + 1 }
        if s2.current_question < s2.quiz_questions.length then
          let r := send_question s2
          some (r.1, fb :: r.2)
        else
          let r := finish_quiz s2
          some (r.1, fb :: r.2)

/-- Answer questions `i, i+1, ...` with the given option choices, one
`quiz_answer` button press per question, accumulating the messages. -/
def run_quiz : Session → Nat → List Nat → Option (Session × List Msg)
  | s, _, [] => some (s, [])
  | s, i, c :: cs =>
    match handle_quiz_answer s i c with
    | none => none
    | some (s', msgs) => (run_quiz s' (i + 1) cs).map (fun r => (r.1, msgs ++ r.2))

/-- The number of answers whose chosen option matches the question's correct
answer under stripped comparison, pairing the question list with the chosen
option indices. -/
def matchCount (qs : List Question) (choices : List Nat) : Nat :=
  (qs.zip choices).countP
    (fun p => (pyStrip (p.1.options.getD p.2 "") == pyStrip p.1.correct))

/-- The `/start` handler (`src/bot_last.py:545-577`): clear the session,
send the welcome and the mode menu, enter `choose_mode`. -/
def handle_start (_ : Session) : Session × List Msg :=
  ({ Session.empty with mode := some Mode.choose_mode }, [Msg.welcome])

/-- `add_word` (`src/bot_last.py:580-598`): present the language menu and
enter `choose_lang`. -/
def add_word (s : Session) : Session × List Msg :=
  ({ s with mode := some Mode.choose_lang }, [Msg.chooseLang])

/-- `start_quiz` (`src/bot_last.py:288-398`): no stored words (or a failed
listing) reports insufficiency, an empty built question set likewise, and
otherwise the quiz state is installed and the first question sent. -/
def start_quiz (env : Env) (s : Session) : Session × List Msg :=
  if env.userWords = [] then (s, [Msg.noWords])
  else
    let questions := start_quiz_questions env.rand (env.wordShuffle env.userWords)
    if questions = [] then (s, [Msg.insufficientData])
    else
      ({ s with quiz_questions := questions, current_question := 0, quiz_score := 0,
                mode := some Mode.quiz_active },
       [Msg.questionPrompt 0])

/-- `handle_text` (`src/bot_last.py:734-838`): dispatch on the current mode.
Rewrite input pops the queue head, prepends the corrected words and resumes
the queue; word input fills the queue and starts processing; a custom
translation moves to definition selection; a custom definition submits the
entry (warning on store failure), pops the queue and resumes; a missing or
idle mode restarts; any other mode reports that the text was not understood. -/
def handle_text (env : Env) (storeOk : Bool) (s : Session) (raw : String) :
    Option (Session × List Msg) :=
  let text := pyStrip raw
  match s.mode with
  | some Mode.await_rewrite_words =>
    let words := tokenize text
    if words = [] then some (s, [Msg.cantExtractWords])
    else
      let new_queue := words ++ s.words_queue.tail
      let s1 := { s with words_queue := new_queue }
      let upd := Msg.wordsUpdated new_queue.length
      if s1.early_rewrite then
        (process_next_word env { s1 with early_rewrite := false }).map
          (fun p => (p.1, upd :: p.2))
      else
        (process_next_word env s1).map (fun p => (p.1, upd :: p.2))
  | some Mode.waiting_words =>
    let words := tokenize text
    if words = [] then some (s, [Msg.cantExtractWords])
    else process_next_word env { s with words_queue := words }
  | some Mode.await_custom_translation =>
    match s.current_word, s.src, s.dest with
    | some word, some src, some dest =>
      let translation := text
      let word_en := if dest = "en" then translation else word
      let word_ru := if src = "ru" then word else translation
      some (handle_word_definition_selection env s word_en word_ru)
    | _, _, _ => none
  | some Mode.await_custom_definition =>
    match s.pending_word_en, s.pending_word_ru with
    | some word_en, some _ =>
      let saveMsg := if storeOk then Msg.savedOk word_en else Msg.savedWarn word_en
      (process_next_word env { s with words_queue := s.words_queue.tail }).map
        (fun p => (p.1, saveMsg :: p.2))
    | _, _ => none
  | none => some (handle_start s)
  | some Mode.idle => some (handle_start s)
  | some _ => some (s, [Msg.notUnderstood])

/-- The encoded `callback_data` payloads of the inline buttons, mirroring the
string patterns the dispatcher tests (`mode::quiz`, `post_*`, `mode::add`,
`lang::ru`/`lang::en`, `select_trans::<text>`, `def_choice::<code>`,
`action::<name>`, `quiz_answer::<i>:<j>`); `other` is any payload matching
none of them. -/
inductive CbData where
  | mode_quiz
  | post_add
  | post_quiz
  | post_finish
  | mode_add
  | lang_ru
  | lang_en
  | select_trans (selected : String)
  | def_choice (choice : String)
  | action (name : String)
  | quiz_answer (question_idx option_idx : Nat)
  | other (raw : String)
deriving DecidableEq, Repr

/-- `callback_query_handler` (`src/bot_last.py:841-976`): the general button
dispatcher.  It branches on the payload alone, never on the current mode.
Missing session keys read by a branch raise a `KeyError` (`none`). -/
def callback_query_handler (env : Env) (storeOk : Bool) (s : Session)
    (data : CbData) : Option (Session × List Msg) :=
  match data with
  | CbData.mode_quiz => some (start_quiz env s)
  | CbData.post_add => some (add_word Session.empty)
  | CbData.post_quiz => some (start_quiz env s)
  | CbData.post_finish => some (Session.empty, [Msg.goodbye])
  | CbData.mode_add => some (add_word s)
  | CbData.lang_ru =>
    some ({ s with src := some "ru", dest := some "en",
                   mode := some Mode.waiting_words }, [Msg.enterWords])
  | CbData.lang_en =>
    some ({ s with src := some "en", dest := some "ru",
                   mode := some Mode.waiting_words }, [Msg.enterWords])
  | CbData.select_trans selected =>
    match s.current_word, s.src, s.dest with
    | some word, some src, some dest =>
      if selected = "custom" then
        some ({ s with mode := some Mode.await_custom_translation },
              [Msg.enterCustomTranslation])
      else
        let translation := selected
        let word_en := if dest = "en" then translation else word
        let word_ru := if src = "ru" then word else translation
        some (handle_word_definition_selection env s word_en word_ru)
    | _, _, _ => none
  | CbData.def_choice choice =>
    match s.pending_word_en, s.pending_word_ru with
    | some word_en, some _ =>
      if choice = "custom" then
        some ({ s with mode := some Mode.await_custom_definition },
              [Msg.enterCustomDefinition])
      else if choice = "orig" ∨ choice = "trans" then
        let saveMsg := if storeOk then Msg.savedOk word_en else Msg.savedWarn word_en
        (process_next_word env { s with words_queue := s.words_queue.tail }).map
          (fun p => (p.1, saveMsg :: p.2))
      else
        some (s, [])
    | _, _ => none
  | CbData.action name =>
    if name = "rewrite_early" then
      some ({ s with mode := some Mode.await_rewrite_words, early_rewrite := true },
            [Msg.enterRewriteWords])
    else if name = "rewrite" then
      some ({ s with mode := some Mode.await_rewrite_words, early_rewrite := false },
            [Msg.enterRewriteWords])
    else if name = "skip" then
      match s.words_queue with
      | [] => process_next_word env s
      | w :: rest =>
        (process_next_word env { s with words_queue := rest }).map
          (fun p => (p.1, Msg.skippedWord w :: p.2))
    else
      some (s, [Msg.unknownCommand])
  | CbData.quiz_answer _ _ => some (s, [Msg.unknownCommand])
  | CbData.other _ => some (s, [Msg.unknownCommand])

/-- The full button-event dispatch as registered in `main`
(`src/bot_last.py:989-992`): the `quiz_answer::` pattern is routed to
`handle_quiz_answer` first, everything else to the general dispatcher. -/
def handle_callback (env : Env) (storeOk : Bool) (s : Session) (data : CbData) :
    Option (Session × List Msg) :=
  match data with
  | CbData.quiz_answer qi oi => handle_quiz_answer s qi oi
  | d => callback_query_handler env storeOk s d

-- (defs continue below)



/-! ### Concrete instances used by witnesses and counterexamples -/

/-- A two-entry vocabulary whose first word is literally a placeholder label. -/
def entriesC1c : List Entry := [⟨"Вариант 1", "слово", ""⟩, ⟨"кот", "", ""⟩]

/-- A well-formed two-entry vocabulary. -/
def entriesC1w : List Entry :=
  [⟨"cat", "кот", "a small animal"⟩, ⟨"dog", "собака", "a loyal animal"⟩]

/-- The question produced from `entriesC1c` under identity shuffles. -/
def qC1c : Question :=
  ⟨QType.translation, "Вариант 1", "слово", "Вариант 1",
    ["Вариант 1", "кот", "Вариант 1", "Вариант 2"]⟩

/-- The first question produced from `entriesC1w` under identity shuffles. -/
def qC1w : Question :=
  ⟨QType.translation, "cat", "кот", "cat", ["cat", "dog", "Вариант 1", "Вариант 2"]⟩

/-- A fresh session that has just been shown the mode menu. -/
def sChooseModeC : Session := { Session.empty with mode := some Mode.choose_mode }

/-- A session sitting at the post-actions menu. -/
def sPostC : Session := { Session.empty with mode := some Mode.post_actions }

/-- An environment whose Google provider always answers `cat`. -/
def envGoogleC : Env := { envNull with googleT := fun _ _ _ => some "cat" }

/-- A session awaiting rewritten words at the definition stage
(`early_rewrite` unset). -/
def sRewLateC : Session :=
  { Session.empty with mode := some Mode.await_rewrite_words,
                       early_rewrite := false, words_queue := ["old"],
                       src := some "ru", dest := some "en" }

/-- A session awaiting rewritten words at the translation stage
(`early_rewrite` set). -/
def sRewEarlyC : Session := { sRewLateC with early_rewrite := true }

/-- A session choosing a definition for a resolved pair, one word queued. -/
def sDefC : Session :=
  { Session.empty with mode := some Mode.choosing_definition,
                       pending_word_en := some "cat", pending_word_ru := some "кот",
                       words_queue := ["cat"], src := some "en", dest := some "ru" }

/-- An environment whose dictionary always finds a definition but whose
definition translation always fails. -/
def envDefC : Env := { envNull with cambridge := fun _ => "a small animal kept as a pet" }

/-- A concrete quiz question answered correctly by option 0. -/
def qaC : Question := ⟨QType.translation, "cat", "кот", "cat", ["cat", "aa", "bb", "cc"]⟩

/-- A concrete quiz question whose correct answer sits at option 3. -/
def qbC : Question :=
  ⟨QType.definition, "dog", "a loyal animal", "a loyal animal",
    ["dd", "ee", "ff", "a loyal animal"]⟩

/-- A session running a two-question quiz. -/
def sQuiz2C : Session :=
  { Session.empty with mode := some Mode.quiz_active, quiz_questions := [qaC, qbC] }

/-- A session running a one-question quiz. -/
def sQuiz1C : Session :=
  { Session.empty with mode := some Mode.quiz_active, quiz_questions := [qaC] }

/-! ### Helper lemmas -/

theorem dedupKeepFirstAux_subset (seen l : List String) :
    ∀ x ∈ dedupKeepFirstAux seen l, x ∈ l := by
  induction l generalizing seen with
  | nil => intro x hx; simp [dedupKeepFirstAux] at hx
  | cons a t ih =>
    intro x hx
    by_cases h : a ∈ seen
    · rw [dedupKeepFirstAux, if_pos h] at hx
      exact List.mem_cons_of_mem _ (ih seen x hx)
    · rw [dedupKeepFirstAux, if_neg h] at hx
      rcases List.mem_cons.mp hx with rfl | hx
      · exact List.mem_cons_self _ _
      · exact List.mem_cons_of_mem _ (ih _ x hx)

theorem dedupKeepFirst_subset (l : List String) :
    ∀ x ∈ dedupKeepFirst l, x ∈ l :=
  dedupKeepFirstAux_subset [] l

theorem genPool_length_ge (words : List Entry) (c : String) (field : Entry → String)
    (count : Nat) : count ≤ (genPool words c field count).length := by
  simp only [genPool]
  split
  · next h =>
    simp only [List.length_append, List.length_map, List.length_range]
    omega
  · next h => omega

theorem genPool_mem (words : List Entry) (c : String) (field : Entry → String)
    {x : String} (hx : x ∈ genPool words c field 3) :
    x ≠ c ∨ x ∈ placeholderLabels := by
  simp only [genPool] at hx
  have base : ∀ y, y ∈ dedupKeepFirst
      ((words.filter (fun w => field w != "" && pyStrip (field w) != c &&
          decide (1 < (pyStrip (field w)).length))).map (fun w => pyStrip (field w))) →
      y ≠ c := by
    intro y hy
    have hy' := dedupKeepFirst_subset _ y hy
    obtain ⟨w, hw, rfl⟩ := List.mem_map.mp hy'
    have := List.of_mem_filter hw
    simp only [Bool.and_eq_true, bne_iff_ne, ne_eq, decide_eq_true_eq] at this
    exact this.1.2
  split at hx
  · rcases List.mem_append.mp hx with h | h
    · exact Or.inl (base x h)
    · obtain ⟨i, hi, rfl⟩ := List.mem_map.mp h
      right
      have hi3 : i < 3 := lt_of_lt_of_le (List.mem_range.mp hi) (by omega)
      interval_cases i <;> simp [placeholderLabels]
  · exact Or.inl (base x hx)

theorem generate_options_length (sh1 sh2 : List String → List String)
    (h1 : ∀ l, (sh1 l).Perm l) (h2 : ∀ l, (sh2 l).Perm l)
    (words : List Entry) (c : String) (field : Entry → String)
    (hw : words ≠ []) (hc : c ≠ "") :
    (generate_options sh1 sh2 words c field 3).length = 4 := by
  simp only [generate_options, if_neg (by simp [hw, hc] : ¬(words = [] ∨ c = ""))]
  have hpool : 3 ≤ (sh1 (genPool words c field 3)).length := by
    rw [(h1 _).length_eq]
    exact genPool_length_ge words c field 3
  rw [List.length_take, (h2 _).length_eq]
  simp only [List.length_cons, List.length_take]
  omega

theorem generate_options_count (sh1 sh2 : List String → List String)
    (h1 : ∀ l, (sh1 l).Perm l) (h2 : ∀ l, (sh2 l).Perm l)
    (words : List Entry) (c : String) (field : Entry → String)
    (hw : words ≠ []) (hc : c ≠ "") :
    1 ≤ (generate_options sh1 sh2 words c field 3).count c ∧
      (c ∉ placeholderLabels → (generate_options sh1 sh2 words c field 3).count c = 1) := by
  simp only [generate_options, if_neg (by simp [hw, hc] : ¬(words = [] ∨ c = ""))]
  have hpool : 3 ≤ (sh1 (genPool words c field 3)).length := by
    rw [(h1 _).length_eq]
    exact genPool_length_ge words c field 3
  have hfull : (sh2 (c :: (sh1 (genPool words c field 3)).take 3)).take 4 =
      sh2 (c :: (sh1 (genPool words c field 3)).take 3) := by
    apply List.take_of_length_le
    rw [(h2 _).length_eq]
    simp only [List.length_cons, List.length_take]
    omega
  rw [hfull, (h2 _).count_eq, List.count_cons]
  simp only [beq_self_eq_true, if_true]
  constructor
  · omega
  · intro hlab
    have hzero : (List.count c ((sh1 (genPool words c field 3)).take 3)) = 0 := by
      rw [List.count_eq_zero]
      intro hmem
      have hmem' : c ∈ sh1 (genPool words c field 3) := List.mem_of_mem_take hmem
      have hmem'' : c ∈ genPool words c field 3 := ((h1 _).mem_iff).mp hmem'
      rcases genPool_mem words c field hmem'' with h | h
      · exact h rfl
      · exact hlab h
    omega

/-- The invariant claimed of every produced question's options. -/
def OptionsInvariant (q : Question) : Prop :=
  q.options.length = 4 ∧ 1 ≤ q.options.count q.correct ∧
    (q.correct ∉ placeholderLabels → q.options.count q.correct = 1)

theorem generate_options_ok (p : ShufflePair) (hp : PermPair p)
    (words : List Entry) (c : String) (field : Entry → String)
    (hguard : 4 ≤ (generate_options p.sh1 p.sh2 words c field 3).length) :
    (generate_options p.sh1 p.sh2 words c field 3).length = 4 ∧
      1 ≤ (generate_options p.sh1 p.sh2 words c field 3).count c ∧
      (c ∉ placeholderLabels → (generate_options p.sh1 p.sh2 words c field 3).count c = 1) := by
  by_cases hwc : words = [] ∨ c = ""
  · exfalso
    rw [generate_options, if_pos hwc] at hguard
    simp at hguard
  · push_neg at hwc
    exact ⟨generate_options_length p.sh1 p.sh2 hp.1 hp.2 words c field hwc.1 hwc.2,
           generate_options_count p.sh1 p.sh2 hp.1 hp.2 words c field hwc.1 hwc.2⟩


theorem foldl_mem_or {α β : Type} (step : List β → α → List β) (P : β → Prop)
    (hstep : ∀ acc a q, q ∈ step acc a → q ∈ acc ∨ P q) :
    ∀ (l : List α) (init : List β) (q : β), q ∈ l.foldl step init → q ∈ init ∨ P q := by
  intro l
  induction l with
  | nil => intro init q h; exact Or.inl h
  | cons a t ih =>
    intro init q h
    rcases ih (step init a) q h with h' | h'
    · exact hstep init a q h'
    · exact Or.inr h'

theorem foldl_preserve {α β : Type} (Q : β → Prop) (step : β → α → β)
    (hstep : ∀ b a, Q b → Q (step b a)) :
    ∀ (l : List α) (b : β), Q b → Q (l.foldl step b) := by
  intro l
  induction l with
  | nil => intro b hb; exact hb
  | cons a t ih => intro b hb; exact ih (step b a) (hstep b a hb)

theorem transQ_ok (r : QuizRand) (hr : GoodRand r) (quiz_words : List Entry)
    (iw : Nat × Entry) (q : Question) (h : transQ r quiz_words iw = some q) :
    OptionsInvariant q := by
  simp only [transQ] at h
  split at h
  · next hguard =>
    obtain rfl := Option.some.injEq _ _ ▸ h
    cases h
    exact generate_options_ok (r.transPhase iw.1) (hr.1 iw.1) quiz_words iw.2.word
      Entry.word hguard
  · exact absurd h (by simp)

theorem defQ_ok (r : QuizRand) (hr : GoodRand r) (quiz_words : List Entry)
    (iw : Nat × Entry) (q : Question) (h : defQ r quiz_words iw = some q) :
    OptionsInvariant q := by
  simp only [defQ] at h
  split at h
  · next hguard =>
    cases h
    exact generate_options_ok (r.defPhase iw.1) (hr.2.1 iw.1) quiz_words iw.2.definition
      Entry.definition hguard
  · exact absurd h (by simp)

theorem fillerStep_mem (r : QuizRand) (hr : GoodRand r) (quiz_words : List Entry)
    (acc : List Question) (iw : Nat × Entry) (q : Question)
    (h : q ∈ fillerStep r quiz_words acc iw) : q ∈ acc ∨ OptionsInvariant q := by
  simp only [fillerStep] at h
  split at h
  · exact Or.inl h
  · split at h
    · split at h
      · next hguard =>
        rcases List.mem_append.mp h with h' | h'
        · exact Or.inl h'
        · right
          obtain rfl := List.mem_singleton.mp h'
          have := generate_options_ok (r.fillPhase iw.1) (hr.2.2.1 iw.1) quiz_words
            iw.2.word Entry.word hguard
          refine ⟨?_, ?_, ?_⟩ <;>
            simp only [OptionsInvariant, List.take_of_length_le (le_of_eq this.1)] <;>
            [exact this.1; exact this.2.1; exact this.2.2]
      · exact Or.inl h
    · split at h
      · split at h
        · next hguard =>
          rcases List.mem_append.mp h with h' | h'
          · exact Or.inl h'
          · right
            obtain rfl := List.mem_singleton.mp h'
            have := generate_options_ok (r.fillPhase iw.1) (hr.2.2.1 iw.1) quiz_words
              iw.2.definition Entry.definition hguard
            refine ⟨?_, ?_, ?_⟩ <;>
              simp only [OptionsInvariant, List.take_of_length_le (le_of_eq this.1)] <;>
              [exact this.1; exact this.2.1; exact this.2.2]
        · exact Or.inl h
      · exact Or.inl h

theorem fillerStep_length_mono (r : QuizRand) (quiz_words : List Entry)
    (acc : List Question) (iw : Nat × Entry) :
    acc.length ≤ (fillerStep r quiz_words acc iw).length := by
  simp only [fillerStep]
  repeat' split
  all_goals simp

theorem fillerStep_length_le (r : QuizRand) (quiz_words : List Entry)
    (acc : List Question) (iw : Nat × Entry) (h : acc.length ≤ 10) :
    (fillerStep r quiz_words acc iw).length ≤ 10 := by
  simp only [fillerStep]
  split
  · exact h
  · next h10 =>
    repeat' split
    all_goals simp_all
    all_goals omega

theorem goodRand_idRand : GoodRand idRand := by
  refine ⟨fun n => ⟨fun l => ?_, fun l => ?_⟩, fun n => ⟨fun l => ?_, fun l => ?_⟩,
    fun n => ⟨fun l => ?_, fun l => ?_⟩, fun l => ?_⟩ <;>
    simp [idRand, idPair]

/-- C1 (amended): for every vocabulary list and every permutation-valid
randomness, every question produced by quiz start has an options list of
length exactly 4 that contains the question's correct answer at least once,
and exactly once whenever the correct answer is not itself one of the
synthesized placeholder labels («Вариант 1», «Вариант 2», «Вариант 3»). -/
theorem claim_C1 (r : QuizRand) (hr : GoodRand r) (words : List Entry)
    (q : Question) (hq : q ∈ start_quiz_questions r words) :
    q.options.length = 4 ∧ 1 ≤ q.options.count q.correct ∧
      (q.correct ∉ placeholderLabels → q.options.count q.correct = 1) := by
  simp only [start_quiz_questions] at hq
  split at hq
  · simp at hq
  · rw [(hr.2.2.2 _).mem_iff] at hq
    have hq2 : ∀ x ∈ transQuestions r (words.take 40)
          (((words.take 40).filter transEligible).take 5) ++
        defQuestions r (words.take 40)
          ((((words.take 40).filter defEligible).drop
            (((words.take 40).filter transEligible).take 5).length).take 5),
        OptionsInvariant x := by
      intro x hx
      rcases List.mem_append.mp hx with hx | hx
      · obtain ⟨iw, _, hiw⟩ := List.mem_filterMap.mp hx
        exact transQ_ok r hr _ iw x hiw
      · obtain ⟨iw, _, hiw⟩ := List.mem_filterMap.mp hx
        exact defQ_ok r hr _ iw x hiw
    split at hq
    · have := foldl_mem_or (fillerStep r (words.take 40)) OptionsInvariant
        (fun acc a q hmem => fillerStep_mem r hr (words.take 40) acc a q hmem)
        _ _ q hq
      rcases this with h | h
      · exact hq2 q h
      · exact h
    · exact hq2 q hq

/-- C1 counterexample: with the two-entry vocabulary `entriesC1c`, whose
first word is literally the placeholder label «Вариант 1», quiz start (under
identity shuffles) produces a question whose 4 options contain the correct
answer twice, refuting "exactly once" as universally stated. -/
theorem claim_C1_counterexample :
    qC1c ∈ start_quiz_questions idRand entriesC1c ∧
      qC1c.options.count qC1c.correct = 2 := by
  constructor
  · decide
  · decide

/-- C1 witness: a 2-entry vocabulary still yields questions with exactly 4
options containing the correct answer exactly once (placeholders are
synthesized to pad the distractors). -/
theorem claim_C1_witness :
    GoodRand idRand ∧ qC1w ∈ start_quiz_questions idRand entriesC1w ∧
      (qC1w.options.length = 4 ∧ 1 ≤ qC1w.options.count qC1w.correct ∧
        (qC1w.correct ∉ placeholderLabels → qC1w.options.count qC1w.correct = 1)) :=
  ⟨goodRand_idRand, by decide,
    claim_C1 idRand goodRand_idRand entriesC1w qC1w (by decide)⟩

theorem filterMap_enum_ne_nil {α β : Type} (f : Nat × α → Option β) (w : α) (t : List α)
    (hf : ∃ b, f (0, w) = some b) : (w :: t).enum.filterMap f ≠ [] := by
  obtain ⟨b, hb⟩ := hf
  have : b ∈ (w :: t).enum.filterMap f := by
    apply List.mem_filterMap.mpr
    exact ⟨(0, w), by simp [List.enum_cons], hb⟩
  exact List.ne_nil_of_mem this

/-- C3 (amended): quiz start yields at most 10 questions for every
vocabulary, and at least 1 whenever at least one entry among the first 40 of
the (already shuffled) vocabulary has a non-empty word together with a
non-empty translation or a non-trivially-stripped definition. -/
theorem claim_C3 (r : QuizRand) (hr : GoodRand r) (words : List Entry) :
    (start_quiz_questions r words).length ≤ 10 ∧
      ((∃ w ∈ words.take 40, w.word ≠ "" ∧
          (w.translation ≠ "" ∨ (w.definition ≠ "" ∧ pyStrip w.definition ≠ ""))) →
        1 ≤ (start_quiz_questions r words).length) := by
  by_cases hwords : words = []
  · subst hwords
    refine ⟨by simp [start_quiz_questions], ?_⟩
    rintro ⟨w, hwmem, -⟩
    simp at hwmem
  simp only [start_quiz_questions, if_neg hwords]
  rw [(hr.2.2.2 _).length_eq]
  set qw := words.take 40 with hqwdef
  set tws := (qw.filter transEligible).take 5 with htws
  set q1 := transQuestions r qw tws with hq1
  set dws := ((qw.filter defEligible).drop tws.length).take 5 with hdws
  set q2 := q1 ++ defQuestions r qw dws with hq2
  have hq1le : q1.length ≤ 5 := by
    calc q1.length ≤ tws.enum.length := List.length_filterMap_le _ _
    _ = tws.length := List.enum_length
    _ ≤ 5 := List.length_take_le _ _
  have hq2le : q2.length ≤ 10 := by
    have : (defQuestions r qw dws).length ≤ 5 := by
      calc (defQuestions r qw dws).length ≤ dws.enum.length :=
        List.length_filterMap_le _ _
      _ = dws.length := List.enum_length
      _ ≤ 5 := List.length_take_le _ _
    simp only [hq2, List.length_append]
    omega
  constructor
  · split
    · simp only [fillerFold]
      exact foldl_preserve (fun acc : List Question => acc.length ≤ 10) (fillerStep r qw)
        (fun acc a h => fillerStep_length_le r qw acc a h) _ q2 hq2le
    · exact hq2le
  rintro ⟨w, hwmem, hword, hcase⟩
  have hqw : qw ≠ [] := List.ne_nil_of_mem hwmem
  have hq2ge : 1 ≤ q2.length := by
    by_cases htfil : qw.filter transEligible = []
    · -- no translation-eligible entry: the witness must be definition-eligible
      have htwsnil : tws = [] := by rw [htws, htfil]; rfl
      have hdef : w.definition ≠ "" ∧ pyStrip w.definition ≠ "" := by
        rcases hcase with htr | hdef
        · exfalso
          have : w ∈ qw.filter transEligible := by
            apply List.mem_filter.mpr
            exact ⟨hwmem, by simp [transEligible, hword, htr]⟩
          rw [htfil] at this
          simp at this
        · exact hdef
      have hdfil : qw.filter defEligible ≠ [] := by
        apply List.ne_nil_of_mem (a := w)
        apply List.mem_filter.mpr
        exact ⟨hwmem, by simp [defEligible, hword, hdef.1, hdef.2]⟩
      have hdwsne : dws ≠ [] := by
        rw [hdws, htwsnil]
        simp only [List.length_nil, List.drop_zero]
        obtain ⟨d, t, hdt⟩ := List.exists_cons_of_ne_nil hdfil
        rw [hdt]
        simp [List.take_succ_cons]
      obtain ⟨d, t, hdt⟩ := List.exists_cons_of_ne_nil hdwsne
      have hdmem : d ∈ qw.filter defEligible := by
        have : d ∈ dws := by rw [hdt]; exact List.mem_cons_self _ _
        rw [hdws] at this
        exact List.mem_of_mem_drop (List.mem_of_mem_take this)
      have hdel := List.of_mem_filter hdmem
      simp only [defEligible, Bool.and_eq_true, bne_iff_ne, ne_eq] at hdel
      have hne : defQuestions r qw dws ≠ [] := by
        rw [hdt]
        apply filterMap_enum_ne_nil
        have h4 := generate_options_length ((r.defPhase 0).sh1) ((r.defPhase 0).sh2)
          ((hr.2.1 0).1) ((hr.2.1 0).2) qw d.definition Entry.definition hqw hdel.1.2
        refine ⟨⟨QType.definition, d.word, d.definition, d.definition,
          generate_options ((r.defPhase 0).sh1) ((r.defPhase 0).sh2) qw
            d.definition Entry.definition 3⟩, ?_⟩
        simp only [defQ]
        rw [if_pos (by omega)]
      have := List.length_pos_of_ne_nil hne
      simp only [hq2, List.length_append]
      omega
    · have htwsne : tws ≠ [] := by
        rw [htws]
        obtain ⟨a, t, hat⟩ := List.exists_cons_of_ne_nil htfil
        rw [hat]
        simp [List.take_succ_cons]
      obtain ⟨a, t, hat⟩ := List.exists_cons_of_ne_nil htwsne
      have hamem : a ∈ qw.filter transEligible := by
        have : a ∈ tws := by rw [hat]; exact List.mem_cons_self _ _
        rw [htws] at this
        exact List.mem_of_mem_take this
      have hael := List.of_mem_filter hamem
      simp only [transEligible, Bool.and_eq_true, bne_iff_ne, ne_eq] at hael
      have hne : q1 ≠ [] := by
        rw [hq1, hat]
        apply filterMap_enum_ne_nil
        have h4 := generate_options_length ((r.transPhase 0).sh1) ((r.transPhase 0).sh2)
          ((hr.1 0).1) ((hr.1 0).2) qw a.word Entry.word hqw hael.1
        refine ⟨⟨QType.translation, a.word, a.translation, a.word,
          generate_options ((r.transPhase 0).sh1) ((r.transPhase 0).sh2) qw
            a.word Entry.word 3⟩, ?_⟩
        simp only [transQ]
        rw [if_pos (by omega)]
      have := List.length_pos_of_ne_nil hne
      simp only [hq2, List.length_append]
      omega
  split
  · simp only [fillerFold]
    exact foldl_preserve (fun acc : List Question => 1 ≤ acc.length) (fillerStep r qw)
      (fun acc a h => le_trans h (fillerStep_length_mono r qw acc a)) _ q2 hq2ge
  · exact hq2ge

/-- C3 counterexample: a vocabulary with one stored entry whose translation
and definition are empty yields zero questions (quiz start reports
insufficiency instead of starting), refuting "at least 1" as universally
stated over vocabularies with at least one entry. -/
theorem claim_C3_counterexample :
    ([⟨"cat", "", ""⟩] : List Entry) ≠ [] ∧
      start_quiz_questions idRand [⟨"cat", "", ""⟩] = [] := by
  constructor
  · decide
  · decide

/-- C3 witness: the bound of at most 10 questions holds for a single-entry
vocabulary, and its entry having a word and a translation forces at least 1
question. -/
theorem claim_C3_witness :
    (∃ w ∈ ([⟨"cat", "кот", ""⟩] : List Entry).take 40, w.word ≠ "" ∧
        (w.translation ≠ "" ∨ (w.definition ≠ "" ∧ pyStrip w.definition ≠ ""))) ∧
      (start_quiz_questions idRand [⟨"cat", "кот", ""⟩]).length ≤ 10 ∧
      1 ≤ (start_quiz_questions idRand [⟨"cat", "кот", ""⟩]).length :=
  ⟨by decide, (claim_C3 idRand goodRand_idRand [⟨"cat", "кот", ""⟩]).1,
    (claim_C3 idRand goodRand_idRand [⟨"cat", "кот", ""⟩]).2 (by decide)⟩

/-- C4 (amended): the presented translation options are the provider results
in deterministic insertion order (Google first, then DeepL, each stripped on
receipt), collapsed by exact equality of the stripped texts with the first
occurrence kept — not by case-insensitive comparison.  The statement is a
complete characterization of `unique_variants ∘ get_translations`. -/
theorem claim_C4 (googleRes deeplRes : Option String) :
    unique_variants (get_translations googleRes deeplRes) =
      match googleRes, deeplRes with
      | none, none => []
      | some g, none => [pyStrip g]
      | none, some d => [pyStrip d]
      | some g, some d =>
        if pyStrip d = pyStrip g then [pyStrip g] else [pyStrip g, pyStrip d] := by
  rcases googleRes with _ | g <;> rcases deeplRes with _ | d
  · rfl
  · simp [get_translations, unique_variants, dedupKeepFirst, dedupKeepFirstAux]
  · simp [get_translations, unique_variants, dedupKeepFirst, dedupKeepFirstAux]
  · by_cases h : pyStrip d = pyStrip g <;>
      simp [get_translations, unique_variants, dedupKeepFirst, dedupKeepFirstAux, h]

/-- C4 counterexample: Google answering "Cat" and DeepL answering "cat"
produce identical texts under case- and whitespace-insensitive comparison,
yet the presented options keep both — the collapse is case-sensitive. -/
theorem claim_C4_counterexample :
    unique_variants (get_translations (some "Cat") (some "cat")) = ["Cat", "cat"] ∧
      pyLower (pyStrip "Cat") = pyLower (pyStrip "cat") ∧
      (["Cat", "cat"] : List String).length ≠ 1 := by
  refine ⟨by decide, by decide, by decide⟩

/-- C2 (amended): a free-text event arriving in a set mode that cannot
consume text yields a "not understood" report with the session unchanged,
and a button event whose payload matches no recognized pattern (an unknown
payload, or an `action::` with an unknown name) yields an "unknown command"
report with the session unchanged.  Button payloads matching a live pattern,
however, are dispatched without any mode check, so they are not covered: a
stale recognized button is processed as if current and can mutate state or
raise a missing-key error (see the counterexample). -/
theorem claim_C2 :
    (∀ (env : Env) (storeOk : Bool) (s : Session) (raw : String) (m : Mode),
        s.mode = some m →
        m = Mode.choose_mode ∨ m = Mode.choose_lang ∨ m = Mode.selecting_translation ∨
          m = Mode.choosing_definition ∨ m = Mode.post_actions ∨ m = Mode.quiz_active →
        handle_text env storeOk s raw = some (s, [Msg.notUnderstood])) ∧
    (∀ (env : Env) (storeOk : Bool) (s : Session) (raw : String),
        callback_query_handler env storeOk s (CbData.other raw) =
          some (s, [Msg.unknownCommand])) ∧
    (∀ (env : Env) (storeOk : Bool) (s : Session) (n : String),
        n ≠ "rewrite_early" → n ≠ "rewrite" → n ≠ "skip" →
        callback_query_handler env storeOk s (CbData.action n) =
          some (s, [Msg.unknownCommand])) := by
  refine ⟨?_, ?_, ?_⟩
  · intro env storeOk s raw m hm hcase
    rcases hcase with rfl | rfl | rfl | rfl | rfl | rfl <;>
      simp [handle_text, hm]
  · intro env storeOk s raw
    rfl
  · intro env storeOk s n h1 h2 h3
    simp [callback_query_handler, h1, h2, h3]

/-- C2 counterexample: a stale `select_trans::кот` button pressed in a fresh
session (mode `choose_mode`, no current word) raises a `KeyError` reading
`current_word` — the handler crashes instead of reporting "not understood",
and certainly does not leave a report with the state unchanged. -/
theorem claim_C2_counterexample :
    callback_query_handler envNull true sChooseModeC (CbData.select_trans "кот") = none ∧
      callback_query_handler envNull true sChooseModeC (CbData.select_trans "кот") ≠
        some (sChooseModeC, [Msg.notUnderstood]) := by
  refine ⟨by decide, by decide⟩

/-- C2 witness: a free-text message in the post-actions mode is answered with
"not understood" and the session is untouched, and an unknown button payload
is answered with "unknown command" and the session is untouched. -/
theorem claim_C2_witness :
    sPostC.mode = some Mode.post_actions ∧
      handle_text envNull true sPostC "привет" = some (sPostC, [Msg.notUnderstood]) ∧
      callback_query_handler envNull true sPostC (CbData.other "junk") =
        some (sPostC, [Msg.unknownCommand]) :=
  ⟨rfl,
    claim_C2.1 envNull true sPostC "привет" Mode.post_actions rfl
      (Or.inr (Or.inr (Or.inr (Or.inr (Or.inl rfl))))),
    claim_C2.2.1 envNull true sPostC "junk"⟩

theorem process_queue_cons_found (env : Env) (s : Session) (w : String)
    (ws : List String) (src dest : String)
    (hsrc : s.src = some src) (hdest : s.dest = some dest)
    (htr : get_translations (env.googleT w src dest) (env.deeplT w src dest) ≠ []) :
    process_queue env (w :: ws) s =
      some ({ s with current_word := some w, mode := some Mode.selecting_translation },
        [Msg.chooseTranslation w (unique_variants
          (get_translations (env.googleT w src dest) (env.deeplT w src dest)))]) := by
  simp only [process_queue, hsrc, hdest]
  rw [if_neg htr]

theorem process_queue_fuel_spec (env : Env) :
    ∀ (l : List String) (fuel : Nat) (s : Session), l.length < fuel →
      process_queue_fuel env fuel l s = some (process_queue env l s) := by
  intro l
  induction l with
  | nil =>
    intro fuel s hf
    cases fuel with
    | zero => omega
    | succ n => rfl
  | cons w rest ih =>
    intro fuel s hf
    cases fuel with
    | zero => omega
    | succ n =>
      cases hsrc : s.src with
      | none => simp [process_queue_fuel, process_queue, hsrc]
      | some src =>
        cases hdest : s.dest with
        | none => simp [process_queue_fuel, process_queue, hsrc, hdest]
        | some dest =>
          simp only [process_queue_fuel, process_queue, hsrc, hdest]
          split
          · rw [ih n _ (by simp at hf; omega)]
            rfl
          · rfl

theorem process_queue_modes (env : Env) :
    ∀ (l : List String) (s : Session), s.words_queue = l →
      s.src.isSome → s.dest.isSome →
      ∃ r, process_queue env l s = some r ∧
        ((r.1.mode = some Mode.post_actions ∧ r.1.words_queue = []) ∨
         (r.1.mode = some Mode.selecting_translation ∧ r.1.words_queue ≠ [])) := by
  intro l
  induction l with
  | nil =>
    intro s hq hsrc hdest
    refine ⟨_, rfl, Or.inl ⟨rfl, hq⟩⟩
  | cons w rest ih =>
    intro s hq hsrc hdest
    obtain ⟨src, hsrc'⟩ := Option.isSome_iff_exists.mp hsrc
    obtain ⟨dest, hdest'⟩ := Option.isSome_iff_exists.mp hdest
    obtain ⟨mo, q, cw, sr, de, pe, pr, ce, cr, er, qq, cq, qs⟩ := s
    simp only at hq hsrc' hdest'
    subst hq
    subst hsrc'
    subst hdest'
    simp only [process_queue]
    split
    · obtain ⟨r, hr, hcase⟩ := ih
        ⟨mo, rest, some w, some src, some dest, pe, pr, ce, cr, er, qq, cq, qs⟩
        rfl (by simp) (by simp)
      refine ⟨(r.1, Msg.cantTranslate w :: r.2), ?_, hcase⟩
      rw [hr]
      rfl
    · exact ⟨_, rfl, Or.inr ⟨rfl, by simp⟩⟩

theorem process_queue_early (env : Env) :
    ∀ (l : List String) (s : Session) (r : Session × List Msg),
      process_queue env l s = some r → r.1.early_rewrite = s.early_rewrite := by
  intro l
  induction l with
  | nil =>
    intro s r h
    simp only [process_queue] at h
    cases h
    rfl
  | cons w rest ih =>
    intro s r h
    simp only [process_queue] at h
    split at h
    · split at h
      · rw [Option.map_eq_some'] at h
        obtain ⟨p, hp, hr⟩ := h
        have := ih _ p hp
        rw [← hr]
        simpa using this
      · cases h
        rfl
    · simp at h

/-- C5 (amended): after free text arrives in the `AwaitRewriteWords` mode,
the current queue head is popped, the corrected words are prepended, and —
identically whether the rewrite originated pre-translation (early flag set)
or at the definition stage — the session resumes queue processing on the new
queue with the early flag cleared.  When the language pair is set, the
resulting session sits in `PostActions` with an emptied queue (every
corrected word consumed or skipped) or in `SelectingTranslation` with a
non-empty queue awaiting the user's selection — never in
`ChoosingDefinition`. -/
theorem claim_C5 (env : Env) (storeOk : Bool) (s : Session) (raw : String)
    (w : String) (ws : List String)
    (hm : s.mode = some Mode.await_rewrite_words)
    (htok : tokenize (pyStrip raw) = w :: ws) :
    handle_text env storeOk s raw =
        (process_next_word env
            { s with words_queue := (w :: ws) ++ s.words_queue.tail,
                     early_rewrite := false }).map
          (fun p => (p.1,
            Msg.wordsUpdated ((w :: ws) ++ s.words_queue.tail).length :: p.2)) ∧
      (s.src.isSome → s.dest.isSome →
        ∃ r, handle_text env storeOk s raw = some r ∧
          r.1.early_rewrite = false ∧
          ((r.1.mode = some Mode.post_actions ∧ r.1.words_queue = []) ∨
           (r.1.mode = some Mode.selecting_translation ∧ r.1.words_queue ≠ [])) ∧
          r.1.mode ≠ some Mode.choosing_definition) := by
  have h1 : handle_text env storeOk s raw =
      (process_next_word env
          { s with words_queue := (w :: ws) ++ s.words_queue.tail,
                   early_rewrite := false }).map
        (fun p => (p.1,
          Msg.wordsUpdated ((w :: ws) ++ s.words_queue.tail).length :: p.2)) := by
    by_cases he : s.early_rewrite <;>
      simp [handle_text, hm, htok, he, process_next_word]
  refine ⟨h1, fun hsrc hdest => ?_⟩
  obtain ⟨r0, hr0, hcase⟩ := process_queue_modes env
    ((w :: ws) ++ s.words_queue.tail)
    { s with words_queue := (w :: ws) ++ s.words_queue.tail, early_rewrite := false }
    rfl (by simpa using hsrc) (by simpa using hdest)
  have hstep : process_next_word env
      { s with words_queue := (w :: ws) ++ s.words_queue.tail,
               early_rewrite := false } = some r0 := by
    simpa [process_next_word] using hr0
  have hearly := process_queue_early env _ _ r0 hr0
  refine ⟨(r0.1,
      Msg.wordsUpdated ((w :: ws) ++ s.words_queue.tail).length :: r0.2), ?_, ?_, ?_, ?_⟩
  · rw [h1, hstep]
    rfl
  · simpa using hearly
  · exact hcase
  · rcases hcase with ⟨hmode, -⟩ | ⟨hmode, -⟩ <;> simp [hmode]

/-- C5 counterexample: with the early flag unset (rewrite requested at the
definition stage) and a translatable corrected word, the session transitions
to `SelectingTranslation`, not `ChoosingDefinition` as the claim requires. -/
theorem claim_C5_counterexample :
    sRewLateC.mode = some Mode.await_rewrite_words ∧
      sRewLateC.early_rewrite = false ∧
      (handle_text envGoogleC true sRewLateC "кошка").map (fun p => p.1.mode) =
        some (some Mode.selecting_translation) ∧
      (handle_text envGoogleC true sRewLateC "кошка").map (fun p => p.1.mode) ≠
        some (some Mode.choosing_definition) := by
  refine ⟨rfl, rfl, by decide, by decide⟩

/-- C5 witness: with the early flag set, the queue head is replaced by the
corrected word, processing resumes on the new queue with the flag cleared,
and the session lands in `SelectingTranslation` with the corrected word
queued — not in `ChoosingDefinition`. -/
theorem claim_C5_witness :
    sRewEarlyC.mode = some Mode.await_rewrite_words ∧
      tokenize (pyStrip "кошка") = ["кошка"] ∧
      handle_text envGoogleC true sRewEarlyC "кошка" =
        (process_next_word envGoogleC
            { sRewEarlyC with words_queue := ["кошка"],
                              early_rewrite := false }).map
          (fun p => (p.1, Msg.wordsUpdated 1 :: p.2)) ∧
      (∃ r, handle_text envGoogleC true sRewEarlyC "кошка" = some r ∧
        r.1.early_rewrite = false ∧
        ((r.1.mode = some Mode.post_actions ∧ r.1.words_queue = []) ∨
         (r.1.mode = some Mode.selecting_translation ∧ r.1.words_queue ≠ [])) ∧
        r.1.mode ≠ some Mode.choosing_definition) :=
  ⟨rfl, by decide,
    (claim_C5 envGoogleC true sRewEarlyC "кошка" "кошка" [] rfl (by decide)).1,
    (claim_C5 envGoogleC true sRewEarlyC "кошка" "кошка" [] rfl (by decide)).2
      (by decide) (by decide)⟩

/-- C6: a store failure is never blocking.  In both submission sites — the
`def_choice::orig`/`def_choice::trans` button and the custom-definition text —
the handler emits the saved confirmation on success and the warning on
failure, pops the queue head either way, and continues processing the
remaining queue exactly as it would on a successful save: the result is the
queue-processing continuation of the popped session, with only the leading
saved/warning message depending on the store outcome. -/
theorem claim_C6 (env : Env) (s : Session) (word_en word_ru : String)
    (hpe : s.pending_word_en = some word_en)
    (hpr : s.pending_word_ru = some word_ru) :
    (∀ (storeOk : Bool) (choice : String), choice = "orig" ∨ choice = "trans" →
        callback_query_handler env storeOk s (CbData.def_choice choice) =
          (process_next_word env { s with words_queue := s.words_queue.tail }).map
            (fun p => (p.1,
              (if storeOk then Msg.savedOk word_en else Msg.savedWarn word_en) :: p.2))) ∧
    (∀ (storeOk : Bool) (raw : String), s.mode = some Mode.await_custom_definition →
        handle_text env storeOk s raw =
          (process_next_word env { s with words_queue := s.words_queue.tail }).map
            (fun p => (p.1,
              (if storeOk then Msg.savedOk word_en else Msg.savedWarn word_en) :: p.2))) := by
  constructor
  · intro storeOk choice hchoice
    rcases hchoice with rfl | rfl <;>
      simp [callback_query_handler, hpe, hpr]
  · intro storeOk raw hm
    simp [handle_text, hm, hpe, hpr]

/-- C6 witness: with an empty remaining queue, a failed save still confirms
with a warning, pops the head and lands in the post-actions menu, exactly as
the successful save does. -/
theorem claim_C6_witness :
    sDefC.pending_word_en = some "cat" ∧
      callback_query_handler envNull false sDefC (CbData.def_choice "orig") =
        some ({ sDefC with words_queue := [], mode := some Mode.post_actions },
          [Msg.savedWarn "cat", Msg.allWordsAdded]) ∧
      callback_query_handler envNull true sDefC (CbData.def_choice "orig") =
        some ({ sDefC with words_queue := [], mode := some Mode.post_actions },
          [Msg.savedOk "cat", Msg.allWordsAdded]) :=
  ⟨rfl, by
    have := (claim_C6 envNull sDefC "cat" "кот" rfl rfl).1 false "orig" (Or.inl rfl)
    rw [this]; decide, by
    have := (claim_C6 envNull sDefC "cat" "кот" rfl rfl).1 true "orig" (Or.inl rfl)
    rw [this]; decide⟩

/-- C8: when the dictionary returns a definition but its machine translation
fails, resolution still succeeds — the stored translated definition is the
empty string — and the offered definition choices are exactly `orig` followed
by `custom`, never `trans`. -/
theorem claim_C8 (env : Env) (s : Session) (word_en word_ru : String)
    (hdef : env.cambridge word_en ≠ "")
    (htr : env.defTranslate (env.cambridge word_en) = none) :
    handle_word_definition_selection env s word_en word_ru =
      ({ s with pending_word_en := some word_en, pending_word_ru := some word_ru,
                cambridge_definition_en := some (env.cambridge word_en),
                cambridge_definition_ru := some "",
                mode := some Mode.choosing_definition },
       [Msg.chooseDefinition word_en word_ru
          [(truncateLabel (env.cambridge word_en), "orig"),
           ("✏️ Своё определение", "custom")]]) ∧
      ([(truncateLabel (env.cambridge word_en), "orig"),
        ("✏️ Своё определение", "custom")].map Prod.snd) = ["orig", "custom"] := by
  constructor
  · simp [handle_word_definition_selection, hdef, htr]
  · rfl

/-- C8 witness: a found definition whose translation call fails yields the
`orig` and `custom` choices only, with an empty stored translation. -/
theorem claim_C8_witness :
    envDefC.cambridge "cat" ≠ "" ∧
      envDefC.defTranslate (envDefC.cambridge "cat") = none ∧
      handle_word_definition_selection envDefC Session.empty "cat" "кот" =
        ({ Session.empty with pending_word_en := some "cat",
                              pending_word_ru := some "кот",
                              cambridge_definition_en :=
                                some "a small animal kept as a pet",
                              cambridge_definition_ru := some "",
                              mode := some Mode.choosing_definition },
         [Msg.chooseDefinition "cat" "кот"
            [("a small animal kept as a pet", "orig"),
             ("✏️ Своё определение", "custom")]]) :=
  ⟨by decide, rfl, by
    have := (claim_C8 envDefC Session.empty "cat" "кот" (by decide) rfl).1
    rw [this]; decide⟩

/-- C9: resuming queue processing terminates for every finite word queue —
a fuel budget of one pass more than the queue length always suffices (each
re-entry strictly shrinks the queue by removing the head) — and, when the
language pair is set, the loop exits either in `PostActions` with an emptied
queue or in `SelectingTranslation` with the untranslated head still queued,
awaiting the user's selection. -/
theorem claim_C9 (env : Env) (s : Session) :
    process_queue_fuel env (s.words_queue.length + 1) s.words_queue s =
        some (process_next_word env s) ∧
      (s.src.isSome → s.dest.isSome →
        ∃ r, process_next_word env s = some r ∧
          ((r.1.mode = some Mode.post_actions ∧ r.1.words_queue = []) ∨
           (r.1.mode = some Mode.selecting_translation ∧ r.1.words_queue ≠ []))) :=
  ⟨process_queue_fuel_spec env s.words_queue (s.words_queue.length + 1) s
      (Nat.lt_succ_self _),
   fun hsrc hdest => process_queue_modes env s.words_queue s rfl hsrc hdest⟩

/-- C9 witness: a 2-word queue with all providers failing terminates within
3 passes, skipping both words and exiting in `PostActions` with an empty
queue. -/
theorem claim_C9_witness :
    (let s := { Session.empty with words_queue := ["aa", "bb"],
                                   src := some "en", dest := some "ru" }
     process_queue_fuel envNull (s.words_queue.length + 1) s.words_queue s =
        some (process_next_word envNull s) ∧
      ∃ r, process_next_word envNull s = some r ∧
        ((r.1.mode = some Mode.post_actions ∧ r.1.words_queue = []) ∨
         (r.1.mode = some Mode.selecting_translation ∧ r.1.words_queue ≠ []))) :=
  ⟨(claim_C9 envNull _).1, (claim_C9 envNull _).2 (by decide) (by decide)⟩

theorem handle_quiz_answer_mid (s : Session) (qi oi : Nat) (q : Question) (sel : String)
    (hq : s.quiz_questions.get? qi = some q) (hsel : q.options.get? oi = some sel)
    (hlt : qi + 1 < s.quiz_questions.length) :
    handle_quiz_answer s qi oi =
      some ({ s with quiz_score :=
                       s.quiz_score + (if pyStrip sel = pyStrip q.correct then 1 else 0),
                     current_question := qi + 1 },
        [(if pyStrip sel = pyStrip q.correct then Msg.feedbackCorrect
          else Msg.feedbackWrong q.correct),
         Msg.questionPrompt (qi + 1)]) := by
  have hni : ¬ (s.quiz_questions.length ≤ qi) := by omega
  have hq' : s.quiz_questions[qi]? = some q := by simpa using hq
  have hsel' : q.options[oi]? = some sel := by simpa using hsel
  by_cases h : pyStrip sel = pyStrip q.correct <;>
    simp [handle_quiz_answer, hq', hsel', hni, h, send_question, hlt, Nat.not_le.mpr hlt]

theorem handle_quiz_answer_last (s : Session) (qi oi : Nat) (q : Question) (sel : String)
    (hq : s.quiz_questions.get? qi = some q) (hsel : q.options.get? oi = some sel)
    (hlast : qi + 1 = s.quiz_questions.length) :
    handle_quiz_answer s qi oi =
      some ({ s with quiz_questions := [], current_question := 0, quiz_score := 0,
                     mode := some Mode.idle },
        [(if pyStrip sel = pyStrip q.correct then Msg.feedbackCorrect
          else Msg.feedbackWrong q.correct),
         Msg.quizSummary
           (s.quiz_score + (if pyStrip sel = pyStrip q.correct then 1 else 0))
           s.quiz_questions.length]) := by
  have hni : ¬ (s.quiz_questions.length ≤ qi) := by omega
  have hnl : ¬ (qi + 1 < s.quiz_questions.length) := by omega
  have hq' : s.quiz_questions[qi]? = some q := by simpa using hq
  have hsel' : q.options[oi]? = some sel := by simpa using hsel
  by_cases h : pyStrip sel = pyStrip q.correct <;>
    simp [handle_quiz_answer, hq', hsel', hni, h, finish_quiz, hnl, hlast]

/-- C10 (amended): for every quiz-answer button event carrying question index
`i` and a valid option index `j` with `i + 1` still less than the stored
question count, the handler sets the current question index to `i + 1`
regardless of its previous value and increments the score exactly when the
chosen option, stripped, equals the stored correct answer stripped — so a
repeated or out-of-order press of an earlier question's button rewinds quiz
progress and can increment the score again for an already answered question.
When `i + 1` equals the question count the handler instead applies the same
score update, reports the summary and clears the quiz state (see the
counterexample). -/
theorem claim_C10 (s : Session) (question_idx option_idx : Nat) (q : Question)
    (selected : String)
    (hq : s.quiz_questions.get? question_idx = some q)
    (hsel : q.options.get? option_idx = some selected)
    (hlt : question_idx + 1 < s.quiz_questions.length) :
    handle_quiz_answer s question_idx option_idx =
      some ({ s with quiz_score :=
                       s.quiz_score +
                         (if pyStrip selected = pyStrip q.correct then 1 else 0),
                     current_question := question_idx + 1 },
        [(if pyStrip selected = pyStrip q.correct then Msg.feedbackCorrect
          else Msg.feedbackWrong q.correct),
         Msg.questionPrompt (question_idx + 1)]) :=
  handle_quiz_answer_mid s question_idx option_idx q selected hq hsel hlt

/-- C10 counterexample: on a one-question quiz, pressing the button of
question 0 (0 is less than the stored question count 1, option 0 valid) does
not leave the current question index at 0 + 1 = 1: the quiz finishes and the
index is cleared to 0. -/
theorem claim_C10_counterexample :
    sQuiz1C.quiz_questions.length = 1 ∧
      handle_quiz_answer sQuiz1C 0 0 =
        some ({ sQuiz1C with quiz_questions := [], current_question := 0,
                             quiz_score := 0, mode := some Mode.idle },
          [Msg.feedbackCorrect, Msg.quizSummary 1 1]) ∧
      (0 : Nat) ≠ 0 + 1 := by
  refine ⟨by decide, by decide, by decide⟩

/-- C10 witness: re-pressing question 0 of a two-question quiz whose index
has already advanced to 1 and whose score is already 1 rewinds the index back
to 1 and increments the score again to 2. -/
theorem claim_C10_witness :
    ({ sQuiz2C with current_question := 1, quiz_score := 1 } : Session).quiz_questions.get? 0 =
        some qaC ∧
      qaC.options.get? 0 = some "cat" ∧
      0 + 1 < ({ sQuiz2C with current_question := 1, quiz_score := 1 } :
        Session).quiz_questions.length ∧
      handle_quiz_answer { sQuiz2C with current_question := 1, quiz_score := 1 } 0 0 =
        some ({ sQuiz2C with current_question := 1, quiz_score := 2 },
          [Msg.feedbackCorrect, Msg.questionPrompt 1]) :=
  ⟨rfl, rfl, by decide, by
    have := claim_C10 { sQuiz2C with current_question := 1, quiz_score := 1 } 0 0
      qaC "cat" rfl rfl (by decide)
    rw [this]
    decide⟩

theorem matchCount_cons (q : Question) (qs : List Question) (c : Nat)
    (cs : List Nat) :
    matchCount (q :: qs) (c :: cs) =
      matchCount qs cs +
        (if pyStrip (q.options.getD c "") = pyStrip q.correct then 1 else 0) := by
  simp only [matchCount, List.zip_cons_cons, List.countP_cons]
  congr 1
  by_cases h : pyStrip (q.options.getD c "") = pyStrip q.correct <;> simp [h]

theorem run_quiz_cons (s : Session) (i c : Nat) (cs : List Nat) :
    run_quiz s i (c :: cs) =
      match handle_quiz_answer s i c with
      | none => none
      | some (s', msgs) =>
        (run_quiz s' (i + 1) cs).map (fun r => (r.1, msgs ++ r.2)) := rfl

theorem run_quiz_go (choices : List Nat) :
    ∀ (s : Session) (i : Nat),
      i + choices.length = s.quiz_questions.length →
      choices ≠ [] →
      (∀ j q c, s.quiz_questions.get? (i + j) = some q → choices.get? j = some c →
          c < q.options.length) →
      ∃ msgs, run_quiz s i choices =
          some ({ s with quiz_questions := [], current_question := 0, quiz_score := 0,
                         mode := some Mode.idle }, msgs) ∧
        Msg.quizSummary (s.quiz_score + matchCount (s.quiz_questions.drop i) choices)
            s.quiz_questions.length ∈ msgs := by
  induction choices with
  | nil => intro s i _ hne _; exact absurd rfl hne
  | cons c cs ih =>
    intro s i hlen _ hvalid
    have hi : i < s.quiz_questions.length := by
      simp only [List.length_cons] at hlen; omega
    have hq : s.quiz_questions.get? i = some (s.quiz_questions.get ⟨i, hi⟩) :=
      List.get?_eq_get hi
    set q := s.quiz_questions.get ⟨i, hi⟩ with hqdef
    have hc : c < q.options.length := hvalid 0 q c (by simpa using hq) rfl
    have hsel : q.options.get? c = some (q.options.get ⟨c, hc⟩) := List.get?_eq_get hc
    set sel := q.options.get ⟨c, hc⟩ with hseldef
    have hdrop : s.quiz_questions.drop i = q :: s.quiz_questions.drop (i + 1) := by
      rw [List.drop_eq_getElem_cons hi]
      congr 1
    have hgetD : q.options.getD c "" = sel := by
      rw [List.getD_eq_getD_get?, hsel]
      rfl
    cases cs with
    | nil =>
      have hlast : i + 1 = s.quiz_questions.length := by
        simp only [List.length_cons, List.length_nil] at hlen; omega
      refine ⟨[(if pyStrip sel = pyStrip q.correct then Msg.feedbackCorrect
          else Msg.feedbackWrong q.correct),
        Msg.quizSummary
          (s.quiz_score + (if pyStrip sel = pyStrip q.correct then 1 else 0))
          s.quiz_questions.length], ?_, ?_⟩
      · simp only [run_quiz, handle_quiz_answer_last s i c q sel hq hsel hlast]
        rfl
      · have hm : matchCount (s.quiz_questions.drop i) [c] =
            (if pyStrip sel = pyStrip q.correct then 1 else 0) := by
          rw [hdrop, List.drop_eq_nil_of_le (le_of_eq hlast.symm)]
          rw [matchCount_cons, hgetD]
          simp [matchCount]
        rw [hm]
        simp
    | cons c2 cs' =>
      have hlt : i + 1 < s.quiz_questions.length := by
        simp only [List.length_cons] at hlen; omega
      set s2 : Session := { s with
        quiz_score := s.quiz_score + (if pyStrip sel = pyStrip q.correct then 1 else 0),
        current_question := i + 1 } with hs2
      have hstep := handle_quiz_answer_mid s i c q sel hq hsel hlt
      have hlen2 : (i + 1) + (c2 :: cs').length = s2.quiz_questions.length := by
        simp only [hs2, List.length_cons] at hlen ⊢; omega
      have hvalid2 : ∀ j q' c', s2.quiz_questions.get? ((i + 1) + j) = some q' →
          (c2 :: cs').get? j = some c' → c' < q'.options.length := by
        intro j q' c' hq' hc'
        apply hvalid (j + 1) q' c'
        · have : i + (j + 1) = (i + 1) + j := by omega
          rw [this]
          exact hq'
        · exact hc'
      obtain ⟨msgs', hrun, hmem⟩ := ih s2 (i + 1) hlen2 (by simp) hvalid2
      refine ⟨[(if pyStrip sel = pyStrip q.correct then Msg.feedbackCorrect
          else Msg.feedbackWrong q.correct),
        Msg.questionPrompt (i + 1)] ++ msgs', ?_, ?_⟩
      · have hunf : run_quiz s i (c :: c2 :: cs') =
            Option.map (fun r => (r.1,
              [(if pyStrip sel = pyStrip q.correct then Msg.feedbackCorrect
                else Msg.feedbackWrong q.correct),
               Msg.questionPrompt (i + 1)] ++ r.2)) (run_quiz s2 (i + 1) (c2 :: cs')) := by
          rw [run_quiz_cons, hstep]
        rw [hunf, hrun]
        rfl
      · apply List.mem_append_right
        have hscore : s.quiz_score + matchCount (s.quiz_questions.drop i) (c :: c2 :: cs') =
            s2.quiz_score + matchCount (s2.quiz_questions.drop (i + 1)) (c2 :: cs') := by
          rw [hdrop, matchCount_cons, hgetD]
          simp only [hs2]
          omega
        rw [hscore]
        exact hmem

/-- C7: for every quiz in which each question is answered exactly once, in
order, with a valid option choice, the final reported summary score equals
the number of questions whose chosen option matches the stored correct
answer under stripped comparison, the summary reports that score out of the
total question count, and the quiz state is then cleared from the session. -/
theorem claim_C7 (s : Session) (qs : List Question) (choices : List Nat)
    (hqs : s.quiz_questions = qs) (hscore : s.quiz_score = 0) (hne : qs ≠ [])
    (hlen : choices.length = qs.length)
    (hvalid : ∀ j q c, qs.get? j = some q → choices.get? j = some c →
        c < q.options.length) :
    ∃ msgs, run_quiz s 0 choices =
        some ({ s with quiz_questions := [], current_question := 0, quiz_score := 0,
                       mode := some Mode.idle }, msgs) ∧
      Msg.quizSummary (matchCount qs choices) qs.length ∈ msgs := by
  have hne' : choices ≠ [] := by
    intro h
    rw [h] at hlen
    exact hne (List.eq_nil_of_length_eq_zero hlen.symm)
  have := run_quiz_go choices s 0 (by simp [hqs, hlen]) hne'
    (by intro j q c hq hc; exact hvalid j q c (by simpa [hqs] using hq) hc)
  simpa [hqs, hscore] using this

/-- C7 witness: a two-question quiz answered in order with one correct and
one wrong choice reports a summary of 1 out of 2 and clears the quiz. -/
theorem claim_C7_witness :
    sQuiz2C.quiz_questions = [qaC, qbC] ∧ sQuiz2C.quiz_score = 0 ∧
      (∃ msgs, run_quiz sQuiz2C 0 [0, 1] =
          some ({ sQuiz2C with quiz_questions := [], current_question := 0,
                               quiz_score := 0, mode := some Mode.idle }, msgs) ∧
        Msg.quizSummary (matchCount [qaC, qbC] [0, 1]) ([qaC, qbC] : List Question).length ∈
          msgs) :=
  ⟨rfl, rfl,
    claim_C7 sQuiz2C [qaC, qbC] [0, 1] rfl rfl (by decide) (by decide)
      (by
        intro j q c hq hc
        match j with
        | 0 => cases hq; cases hc; decide
        | 1 => cases hq; cases hc; decide
        | Nat.succ (Nat.succ j) => cases hq)⟩

end DictBot
